import Mathlib

/-!
Verification of the context-propagation + structured-merge engine of
`adk_agentic_logging` (files `core/context.py`, `core/serialization.py`,
`adk/instrumentation.py`, and `integrations/` fastapi.py, flask.py,
django.py), shallowly embedded in Lean.

Python dictionaries are modelled as insertion-ordered association lists
(`Ctx`), Python run-time values as the inductive `PyVal`, and the
`contextvars` store as a function from a logical-execution id to the
per-execution value of the `_log_context` variable.
-/

set_option maxHeartbeats 1000000
set_option maxRecDepth 2000

namespace AdkLog

/-- A Python run-time value as it can occur in the log-context bucket:
strings, ints, bools, `None`, lists, string-keyed dicts, and arbitrary
non-JSON-serializable objects.  An `obj` carries whether it has an
`isoformat()` method, the string that method would return, and its
`str()` representation. -/
inductive PyVal where
  | str (s : String)
  | int (n : Int)
  | bool (b : Bool)
  | none
  | list (elems : List PyVal)
  | dict (entries : List (String × PyVal))
  | obj (hasIsoformat : Bool) (isoStr : String) (strRepr : String)
deriving Repr

/-- A Python dict with string keys: insertion-ordered association list. -/
abbrev Ctx := List (String × PyVal)

/-- Python `d[k]` / `d.get(k)`: the value of the (first) binding of `k`. -/
def dictGet (d : Ctx) (k : String) : Option PyVal :=
  match d with
  | [] => Option.none
  | (k', v) :: rest => if k' = k then some v else dictGet rest k

/-- Python `d[k] = v`: update the existing binding in place (insertion
order preserved), or append a new binding at the end. -/
def dictSet (d : Ctx) (k : String) (v : PyVal) : Ctx :=
  match d with
  | [] => [(k, v)]
  | (k', v') :: rest => if k' = k then (k', v) :: rest else (k', v') :: dictSet rest k v

/-- Python `d.pop(k, default)`'s effect on the dict: remove the binding of
`k` if present. -/
def dictRemove (d : Ctx) (k : String) : Ctx :=
  match d with
  | [] => []
  | (k', v) :: rest => if k' = k then rest else (k', v) :: dictRemove rest k

/-- The keys of a dict, in insertion order. -/
def ctxKeys (d : Ctx) : List String := d.map Prod.fst

@[simp] theorem ctxKeys_nil : ctxKeys [] = [] := rfl

@[simp] theorem ctxKeys_cons (k : String) (v : PyVal) (rest : Ctx) :
    ctxKeys ((k, v) :: rest) = k :: ctxKeys rest := rfl

@[simp] theorem dictGet_nil (k : String) : dictGet [] k = Option.none := rfl

@[simp] theorem dictGet_cons (k' k : String) (v : PyVal) (rest : Ctx) :
    dictGet ((k', v) :: rest) k = if k' = k then some v else dictGet rest k := rfl

theorem dictGet_dictSet_self (d : Ctx) (k : String) (v : PyVal) :
    dictGet (dictSet d k v) k = some v := by
  induction d with
  | nil => simp [dictSet]
  | cons hd tl ih =>
    obtain ⟨k', v'⟩ := hd
    by_cases h : k' = k
    · simp [dictSet, h]
    · simp [dictSet, h, ih]

theorem dictGet_dictSet_ne (d : Ctx) (k k' : String) (v : PyVal) (h : k ≠ k') :
    dictGet (dictSet d k v) k' = dictGet d k' := by
  induction d with
  | nil => simp [dictSet, h]
  | cons hd tl ih =>
    obtain ⟨k0, v0⟩ := hd
    by_cases h0 : k0 = k
    · subst h0
      simp [dictSet, h]
    · simp [dictSet, h0, ih]

theorem dictGet_isSome_of_mem_keys (d : Ctx) (k : String) (h : k ∈ ctxKeys d) :
    (dictGet d k).isSome := by
  induction d with
  | nil => simp at h
  | cons hd tl ih =>
    obtain ⟨k0, v0⟩ := hd
    by_cases h0 : k0 = k
    · simp [h0]
    · simp [h0] at h ⊢
      rcases h with h | h
      · exact absurd h.symm h0
      · exact ih h

theorem dictGet_eq_none_of_not_mem_keys (d : Ctx) (k : String) (h : k ∉ ctxKeys d) :
    dictGet d k = Option.none := by
  induction d with
  | nil => rfl
  | cons hd tl ih =>
    obtain ⟨k0, v0⟩ := hd
    simp at h
    push_neg at h
    have h0 : ¬ k0 = k := fun hh => h.1 hh.symm
    simp [h0, ih h.2]

/-- Python `repr()` of a string: single-quoted, with backslash and quote
escaped (simplified model of the CPython quoting rules). -/
def pyQuote (s : String) : String :=
  "'" ++ String.join (s.data.map (fun c =>
    if c = Char.ofNat 92 then "\\\\"
    else if c = Char.ofNat 39 then "\\'"
    else String.singleton c)) ++ "'"

mutual

/-- Python `repr()` on the modelled value domain. -/
def pyRepr : PyVal → String
  | PyVal.str s => pyQuote s
  | PyVal.int n => toString n
  | PyVal.bool b => bif b then "True" else "False"
  | PyVal.none => "None"
  | PyVal.list es => "[" ++ pyReprElems es ++ "]"
  | PyVal.dict es => "\x7b" ++ pyReprEntries es ++ "\x7d"
  | PyVal.obj _ _ r => r

/-- Comma-separated `repr`s of the elements of a list. -/
def pyReprElems : List PyVal → String
  | [] => ""
  | [v] => pyRepr v
  | v :: rest => pyRepr v ++ ", " ++ pyReprElems rest

/-- Comma-separated `key: value` `repr`s of the entries of a dict. -/
def pyReprEntries : List (String × PyVal) → String
  | [] => ""
  | [(k, v)] => pyQuote k ++ ": " ++ pyRepr v
  | (k, v) :: rest => pyQuote k ++ ": " ++ pyRepr v ++ ", " ++ pyReprEntries rest

end

/-- Python `str()`: a string is returned as-is, anything else as its
`repr`-like rendering (for `obj` the carried `strRepr`). -/
def pyStr : PyVal → String
  | PyVal.str s => s
  | v => pyRepr v

/-- Python's `c in s` on a string, one character: membership in the
character list. -/
def pyIn (c : Char) (s : String) : Bool := s.data.contains c

/-- Python's `s.startswith(p)`. -/
def pyStartsWith (s p : String) : Bool := List.isPrefixOf p.data s.data

/-- Python's `s.split(c)` for a one-character separator, on the character
list: split at every occurrence, keeping empty chunks. -/
def pySplitChar (c : Char) : List Char → List (List Char)
  | [] => [[]]
  | x :: xs =>
    if x = c then [] :: pySplitChar c xs
    else
      match pySplitChar c xs with
      | [] => [[x]]
      | h :: t => (x :: h) :: t

/-- Python's `s.split(c)` for a one-character separator. -/
def pySplit (s : String) (c : Char) : List String := (pySplitChar c s.data).map String.mk

/-- The `if part not in d or not isinstance(d[part], dict)` step of
`LogContext.add`: the dict child of `d` at `p` to descend into — the
existing one when it is a dict, else a fresh empty dict replacing
whatever was there. -/
def childCtx (d : Ctx) (p : String) : Ctx :=
  match dictGet d p with
  | some (PyVal.dict sub) => sub
  | _ => []

/-- The nesting loop of `LogContext.add`: walk the dot-separated path
components, replacing a missing or non-dict child by a fresh empty dict,
and bind the final component to the value. -/
def setPath (d : Ctx) (parts : List String) (v : PyVal) : Ctx :=
  match parts with
  | [] => d
  | [last] => dictSet d last v
  | p :: rest => dictSet d p (PyVal.dict (setPath (childCtx d p) rest v))

/-- `LogContext.add`, bucket part: a key containing a dot is split and
nested, unless it starts with the reserved prefix
`logging.googleapis.com`, in which case (like dot-free keys) it is stored
flat. -/
def addCtx (ctx : Ctx) (key : String) (v : PyVal) : Ctx :=
  if pyIn '.' key && !(pyStartsWith key "logging.googleapis.com") then
    setPath ctx (pySplit key '.') v
  else
    dictSet ctx key v

mutual

/-- The `_flatten_set` closure inside `LogContext.add`: depth-first walk
of a dict value, writing `prefix.child...` span attributes at the
leaves, each leaf stringified with `str()` (no truncation). -/
def flattenSet (pfx : String) : PyVal → List (String × String)
  | PyVal.dict entries => flattenEntries pfx entries
  | v => [(pfx, pyStr v)]

/-- `_flatten_set` iterated over the entries of a dict. -/
def flattenEntries (pfx : String) : List (String × PyVal) → List (String × String)
  | [] => []
  | (k2, v2) :: rest => flattenSet (pfx ++ "." ++ k2) v2 ++ flattenEntries pfx rest

end

/-- The span mirroring performed inline by `LogContext.add` when a
recording span is active: dict values are flattened, any other value is
written as `str(value)` under the key itself. -/
def addSpanWrites (key : String) (v : PyVal) : List (String × String) :=
  match v with
  | PyVal.dict es => flattenSet key (PyVal.dict es)
  | _ => [(key, pyStr v)]

/-- `LogContext.add` as a whole: the new bucket together with the span
attribute writes it performs (none when no recording span is active). -/
def addOp (spanRecording : Bool) (ctx : Ctx) (key : String) (v : PyVal) :
    Ctx × List (String × String) :=
  (addCtx ctx key v, bif spanRecording then addSpanWrites key v else [])

/-- The length guard of `_add_span_attributes_from_ctx`: values longer
than 1024 characters are cut to the first 1024 characters and the marker
`... [truncated]` is appended. -/
def truncateAttr (s : String) : String :=
  if s.length > 1024 then s.take 1024 ++ "... [truncated]" else s

/-- The `f-string` prefix join of `_set_nested_attr`. -/
def joinNested (pfx k : String) : String :=
  if pfx = "" then k else pfx ++ "." ++ k

mutual

/-- `_set_nested_attr` inside `_add_span_attributes_from_ctx`: recurse
through dicts, and at each leaf write the stringified, truncated value. -/
def setNestedAttr (pfx : String) : PyVal → List (String × String)
  | PyVal.dict entries => setNestedEntries pfx entries
  | v => [(pfx, truncateAttr (pyStr v))]

/-- `_set_nested_attr` iterated over the entries of a dict. -/
def setNestedEntries (pfx : String) : List (String × PyVal) → List (String × String)
  | [] => []
  | (k, v) :: rest => setNestedAttr (joinNested pfx k) v ++ setNestedEntries pfx rest

end

/-- `_add_span_attributes_from_ctx`: mirror the whole bucket onto the
span, skipping the reserved `severity`/`timestamp`/`message` keys. -/
def addSpanAttributesFromCtx : Ctx → List (String × String)
  | [] => []
  | (k, v) :: rest =>
    if k = "severity" ∨ k = "timestamp" ∨ k = "message" then addSpanAttributesFromCtx rest
    else setNestedAttr k v ++ addSpanAttributesFromCtx rest

/-- A logical-execution id (one asyncio task / one request context). -/
abbrev ExecId := Nat

/-- The `contextvars` store: the value the `_log_context` ContextVar holds
in each logical execution's context (default `None`). -/
abbrev Store := ExecId → Option Ctx

/-- `LogContext._get_ctx` as an observation: the bucket visible to
execution `e`; a `None` variable reads as a fresh empty dict (which
`_get_ctx` also writes back — the visible bucket is the same either way). -/
def getCtxOf (s : Store) (e : ExecId) : Ctx := (s e).getD []

/-- `_log_context.set(...)` performed from within execution `e`. -/
def storeSet (s : Store) (e : ExecId) (v : Option Ctx) : Store :=
  fun e' => if e' = e then v else s e'

/-- The mutating `LogContext` operations. -/
inductive Op where
  | clear
  | add (key : String) (value : PyVal)

/-- How a `LogContext` operation invoked from execution `e` acts on the
store: `clear` sets the variable to `None`; `add` copies the current
bucket, merges, and sets the copy back — always through `e`'s own slot. -/
def runOp (s : Store) (e : ExecId) : Op → Store
  | Op.clear => storeSet s e Option.none
  | Op.add k v => storeSet s e (some (addCtx (getCtxOf s e) k v))

/-- An interleaved trace of operations of several logical executions. -/
def runTrace (s : Store) : List (ExecId × Op) → Store
  | [] => s
  | (e, op) :: tr => runTrace (runOp s e op) tr

/-- The operations of a trace performed by execution `e`, in order. -/
def opsOf (e : ExecId) (tr : List (ExecId × Op)) : List Op :=
  tr.filterMap (fun p => if p.1 = e then some p.2 else Option.none)

/-- Running a list of operations against a single ContextVar slot. -/
def runOpsLocal (c : Option Ctx) : List Op → Option Ctx
  | [] => c
  | Op.clear :: ops => runOpsLocal Option.none ops
  | Op.add k v :: ops => runOpsLocal (some (addCtx (c.getD []) k v)) ops

/-- `LogContext.get_all` from execution `e`: the full current bucket. -/
def getAll (s : Store) (e : ExecId) : Ctx := getCtxOf s e

/-- A caught Python exception: its class name, `str()` message, and the
module of its class. -/
structure PyExc where
  className : String
  message : String
  module : String

/-- The `error_info` dict built by `LogContext.record_exception`. -/
def errorInfo (e : PyExc) : PyVal :=
  PyVal.dict [("type", PyVal.str e.className), ("message", PyVal.str e.message),
    ("module", PyVal.str e.module)]

/-- `LogContext.record_exception`: add the fixed-shape error record under
`error`, then set `severity` to `ERROR`. -/
def recordException (ctx : Ctx) (e : PyExc) : Ctx :=
  addCtx (addCtx ctx "error" (errorInfo e)) "severity" (PyVal.str "ERROR")

/-- The `except Exception as e` branch of `instrument_runner`'s wrappers:
record the exception into the bucket and re-raise the very same
exception to the caller. -/
def syncWrapperExcept (ctx : Ctx) (e : PyExc) : Ctx × Except PyExc PyVal :=
  (recordException ctx e, Except.error e)

/-- `default_serializer` (core/serialization.py): an object with an
`isoformat()` method is rendered as `str(obj.isoformat())`, anything
else as `str(obj)`. -/
def default_serializer : PyVal → String
  | PyVal.obj hasIso iso r => bif hasIso then iso else r
  | v => pyStr v

/-- JSON string quoting as performed by `json.dumps` (simplified model:
quote and backslash escapes). -/
def jsonQuote (s : String) : String :=
  "\"" ++ String.join (s.data.map (fun c =>
    if c = Char.ofNat 92 then "\\\\"
    else if c = Char.ofNat 34 then "\\\""
    else String.singleton c)) ++ "\""

mutual

/-- `json.dumps` on the modelled value domain; `useDefault` records
whether `default=default_serializer` was passed.  Returns `Option.none`
exactly when CPython would raise `TypeError: ... is not JSON
serializable`. -/
def jsonDumps (useDefault : Bool) : PyVal → Option String
  | PyVal.str s => some (jsonQuote s)
  | PyVal.int n => some (toString n)
  | PyVal.bool b => some (bif b then "true" else "false")
  | PyVal.none => some "null"
  | PyVal.list es => (jsonDumpsElems useDefault es).map (fun body => "[" ++ body ++ "]")
  | PyVal.dict es => (jsonDumpsEntries useDefault es).map (fun body => "\x7b" ++ body ++ "\x7d")
  | PyVal.obj hasIso iso r =>
    bif useDefault then some (jsonQuote (default_serializer (PyVal.obj hasIso iso r)))
    else Option.none

/-- `json.dumps` over the elements of a list. -/
def jsonDumpsElems (useDefault : Bool) : List PyVal → Option String
  | [] => some ""
  | [v] => jsonDumps useDefault v
  | v :: rest =>
    match jsonDumps useDefault v, jsonDumpsElems useDefault rest with
    | some a, some b => some (a ++ ", " ++ b)
    | _, _ => Option.none

/-- `json.dumps` over the entries of a dict. -/
def jsonDumpsEntries (useDefault : Bool) : List (String × PyVal) → Option String
  | [] => some ""
  | [(k, v)] => (jsonDumps useDefault v).map (fun a => jsonQuote k ++ ": " ++ a)
  | (k, v) :: rest =>
    match jsonDumps useDefault v, jsonDumpsEntries useDefault rest with
    | some a, some b => some (jsonQuote k ++ ": " ++ a ++ ", " ++ b)
    | _, _ => Option.none

end

mutual

/-- No non-serializable `obj` anywhere inside the value: `json.dumps`
without a `default` succeeds exactly on such values. -/
def serializable : PyVal → Bool
  | PyVal.list es => serializableElems es
  | PyVal.dict es => serializableEntries es
  | PyVal.obj _ _ _ => false
  | _ => true

/-- `serializable` over the elements of a list. -/
def serializableElems : List PyVal → Bool
  | [] => true
  | v :: rest => serializable v && serializableElems rest

/-- `serializable` over the entries of a dict. -/
def serializableEntries : List (String × PyVal) → Bool
  | [] => true
  | (_, v) :: rest => serializable v && serializableEntries rest

end

/-- Python dict-literal spread `{..., **m}`: successive assignments of
`m`'s entries into the already-built part. -/
def spread (base : Ctx) (m : Ctx) : Ctx :=
  m.foldl (fun d kv => dictSet d kv.1 kv.2) base

/-- Outcome of an `_emit_log` call. -/
inductive EmitResult where
  | skipped
  | emitted (line : String)
  | serializationError
deriving Repr, DecidableEq

/-- The `final_log` dict built by the FastAPI and Flask `_emit_log`. -/
def finalLogFlask (ctx : Ctx) (ts : String) : Ctx :=
  spread [("severity", (dictGet ctx "severity").getD (PyVal.str "INFO")),
          ("timestamp", PyVal.str ts),
          ("message", PyVal.str "Request processed")] ctx

/-- Flask `_emit_log`: empty buckets are skipped, else
`json.dumps(final_log)` — without `default=`. -/
def emitLogFlask (ctx : Ctx) (ts : String) : EmitResult :=
  if ctx.isEmpty then EmitResult.skipped
  else
    match jsonDumps false (PyVal.dict (finalLogFlask ctx ts)) with
    | some line => EmitResult.emitted line
    | Option.none => EmitResult.serializationError

/-- FastAPI `_emit_log`: its body is identical to the Flask one (in
particular it also calls `json.dumps` without `default=`). -/
def emitLogFastapi (ctx : Ctx) (ts : String) : EmitResult := emitLogFlask ctx ts

/-- The `final_log` dict built by the Django `_emit_log`: severity is
popped out of the bucket and re-inserted first; there is no `message`
key. -/
def finalLogDjango (ctx : Ctx) (ts : String) : Ctx :=
  spread [("severity", (dictGet ctx "severity").getD (PyVal.str "INFO")),
          ("timestamp", PyVal.str ts)] (dictRemove ctx "severity")

/-- Django `_emit_log`: `json.dumps(final_log, default=default_serializer)`. -/
def emitLogDjango (ctx : Ctx) (ts : String) : EmitResult :=
  if ctx.isEmpty then EmitResult.skipped
  else
    match jsonDumps true (PyVal.dict (finalLogDjango ctx ts)) with
    | some line => EmitResult.emitted line
    | Option.none => EmitResult.serializationError

mutual

/-- The leaves of a (possibly nested-dict) value, each with the key path
leading to it; a non-dict value is a single leaf with an empty path. -/
def leafPaths : PyVal → List (List String × PyVal)
  | PyVal.dict es => leafPathsE es
  | v => [([], v)]

/-- `leafPaths` over the entries of a dict. -/
def leafPathsE : List (String × PyVal) → List (List String × PyVal)
  | [] => []
  | (k, v) :: rest => (leafPaths v).map (fun q => (k :: q.1, q.2)) ++ leafPathsE rest

end

/-- Dot-joined rendering of a key path. -/
def dotJoin : List String → String
  | [] => ""
  | [k] => k
  | k :: rest => k ++ "." ++ dotJoin rest

/-- Successive dict lookups along a nonempty path, as in
`get_all()["a"]["b"]["c"]`. -/
def lookupPath (c : Ctx) : List String → Option PyVal
  | [] => Option.none
  | [k] => dictGet c k
  | k :: rest =>
    match dictGet c k with
    | some (PyVal.dict sub) => lookupPath sub rest
    | _ => Option.none

section

variable (motive : PyVal → Prop) (motiveE : List (String × PyVal) → Prop)
  (motiveL : List PyVal → Prop)
  (hstr : ∀ s, motive (PyVal.str s)) (hint : ∀ n, motive (PyVal.int n))
  (hbool : ∀ b, motive (PyVal.bool b)) (hnone : motive PyVal.none)
  (hlist : ∀ es, motiveL es → motive (PyVal.list es))
  (hdict : ∀ es, motiveE es → motive (PyVal.dict es))
  (hobj : ∀ a b c, motive (PyVal.obj a b c))
  (hnilE : motiveE []) (hconsE : ∀ k v es, motive v → motiveE es → motiveE ((k, v) :: es))
  (hnilL : motiveL []) (hconsL : ∀ v es, motive v → motiveL es → motiveL (v :: es))

mutual

/-- Simultaneous induction principle for `PyVal` and the entry/element
lists nested inside it. -/
def pyValInd : ∀ v, motive v
  | PyVal.str s => hstr s
  | PyVal.int n => hint n
  | PyVal.bool b => hbool b
  | PyVal.none => hnone
  | PyVal.list es => hlist es (pyValIndL es)
  | PyVal.dict es => hdict es (pyValIndE es)
  | PyVal.obj a b c => hobj a b c

/-- `pyValInd` for entry lists. -/
def pyValIndE : ∀ es, motiveE es
  | [] => hnilE
  | (k, v) :: es => hconsE k v es (pyValInd v) (pyValIndE es)

/-- `pyValInd` for element lists. -/
def pyValIndL : ∀ es, motiveL es
  | [] => hnilL
  | v :: es => hconsL v es (pyValInd v) (pyValIndL es)

end

end

theorem pySplitChar_ne_nil (c : Char) (l : List Char) : pySplitChar c l ≠ [] := by
  induction l with
  | nil => simp [pySplitChar]
  | cons x xs ih =>
    by_cases h : x = c
    · simp [pySplitChar, h]
    · simp only [pySplitChar, if_neg h]
      cases hx : pySplitChar c xs with
      | nil => simp
      | cons hh tt => simp

theorem pySplit_ne_nil (s : String) (c : Char) : pySplit s c ≠ [] := by
  intro h
  exact pySplitChar_ne_nil c s.data (List.map_eq_nil_iff.mp h)

theorem lookupPath_setPath (parts : List String) (c : Ctx) (v : PyVal) (h : parts ≠ []) :
    lookupPath (setPath c parts v) parts = some v := by
  induction parts generalizing c with
  | nil => exact absurd rfl h
  | cons p rest ih =>
    cases rest with
    | nil => simp [setPath, lookupPath, dictGet_dictSet_self]
    | cons q rest' =>
      show lookupPath
        (dictSet c p (PyVal.dict (setPath (childCtx c p) (q :: rest') v)))
        (p :: q :: rest') = some v
      simp only [lookupPath, dictGet_dictSet_self]
      exact ih (childCtx c p) (by simp)

theorem runOp_frame (s : Store) (e e' : ExecId) (op : Op) (h : e' ≠ e) :
    runOp s e op e' = s e' := by
  cases op <;> simp [runOp, storeSet, h]

theorem runOp_self_clear (s : Store) (e : ExecId) :
    runOp s e Op.clear e = Option.none := by
  simp [runOp, storeSet]

theorem runOp_self_add (s : Store) (e : ExecId) (k : String) (v : PyVal) :
    runOp s e (Op.add k v) e = some (addCtx (getCtxOf s e) k v) := by
  simp [runOp, storeSet]

theorem runTrace_proj (tr : List (ExecId × Op)) (s : Store) (e : ExecId) :
    runTrace s tr e = runOpsLocal (s e) (opsOf e tr) := by
  induction tr generalizing s with
  | nil => rfl
  | cons hd tl ih =>
    obtain ⟨e0, op⟩ := hd
    have hrun : runTrace s ((e0, op) :: tl) e = runTrace (runOp s e0 op) tl e := rfl
    rw [hrun, ih]
    by_cases h : e0 = e
    · subst h
      cases op with
      | clear =>
        rw [runOp_self_clear]
        simp [opsOf, List.filterMap_cons, runOpsLocal]
      | add k v =>
        rw [runOp_self_add]
        simp [opsOf, List.filterMap_cons, runOpsLocal, getCtxOf]
    · rw [runOp_frame s e0 e op (fun hh => h hh.symm)]
      simp [opsOf, List.filterMap_cons, h]

theorem dictGet_spread_of_not_mem (m base : Ctx) (k : String) (h : k ∉ ctxKeys m) :
    dictGet (spread base m) k = dictGet base k := by
  induction m generalizing base with
  | nil => rfl
  | cons hd tl ih =>
    obtain ⟨k0, v0⟩ := hd
    simp at h
    push_neg at h
    have hs : spread base ((k0, v0) :: tl) = spread (dictSet base k0 v0) tl := rfl
    rw [hs, ih _ h.2, dictGet_dictSet_ne base k0 k v0 (fun hh => h.1 hh.symm)]

theorem dictGet_spread_of_mem (m : Ctx) (k : String) (v : PyVal)
    (hnd : (ctxKeys m).Nodup) (h : dictGet m k = some v) :
    ∀ base : Ctx, dictGet (spread base m) k = some v := by
  induction m with
  | nil => simp at h
  | cons hd tl ih =>
    obtain ⟨k0, v0⟩ := hd
    intro base
    simp at hnd
    have hs : spread base ((k0, v0) :: tl) = spread (dictSet base k0 v0) tl := rfl
    rw [hs]
    by_cases hk : k0 = k
    · subst hk
      simp at h
      subst h
      rw [dictGet_spread_of_not_mem tl _ k0 hnd.1, dictGet_dictSet_self]
    · simp [hk] at h
      exact ih hnd.2 h _

theorem ctxKeys_dictRemove_subset (d : Ctx) (k k' : String) (hk : k' ≠ k)
    (h : k' ∈ ctxKeys d) : k' ∈ ctxKeys (dictRemove d k) := by
  induction d with
  | nil => simp at h
  | cons hd tl ih =>
    obtain ⟨k0, v0⟩ := hd
    by_cases h0 : k0 = k
    · subst h0
      simp [dictRemove] at h ⊢
      rcases h with h | h
      · exact absurd h hk
      · exact h
    · simp [dictRemove, h0] at h ⊢
      rcases h with h | h
      · exact Or.inl h
      · exact Or.inr (ih h)

theorem ctxKeys_dictRemove_sublist (d : Ctx) (k : String) :
    List.Sublist (ctxKeys (dictRemove d k)) (ctxKeys d) := by
  induction d with
  | nil => simp [dictRemove]
  | cons hd tl ih =>
    obtain ⟨k0, v0⟩ := hd
    by_cases h0 : k0 = k
    · simp [dictRemove, h0]
    · simpa [dictRemove, h0] using ih.cons₂ k0

theorem ctxKeys_dictRemove_nodup (d : Ctx) (k : String)
    (h : (ctxKeys d).Nodup) : (ctxKeys (dictRemove d k)).Nodup :=
  (ctxKeys_dictRemove_sublist d k).nodup h

theorem dictGet_dictRemove_self (d : Ctx) (k : String) (h : (ctxKeys d).Nodup) :
    dictGet (dictRemove d k) k = Option.none := by
  induction d with
  | nil => rfl
  | cons hd tl ih =>
    obtain ⟨k0, v0⟩ := hd
    simp at h
    by_cases h0 : k0 = k
    · subst h0
      show dictGet (dictRemove ((k0, v0) :: tl) k0) k0 = Option.none
      simp only [dictRemove, if_pos rfl]
      exact dictGet_eq_none_of_not_mem_keys tl k0 h.1
    · simp [dictRemove, h0, ih h.2]

theorem jsonDumps_isSome (v : PyVal) :
    ∀ u : Bool, (u || serializable v) = true → (jsonDumps u v).isSome := by
  refine pyValInd
    (fun v => ∀ u : Bool, (u || serializable v) = true → (jsonDumps u v).isSome)
    (fun es => ∀ u : Bool, (u || serializableEntries es) = true →
      (jsonDumpsEntries u es).isSome)
    (fun es => ∀ u : Bool, (u || serializableElems es) = true →
      (jsonDumpsElems u es).isSome)
    ?_ ?_ ?_ ?_ ?_ ?_ ?_ ?_ ?_ ?_ ?_ v
  · intro s u _
    simp [jsonDumps]
  · intro n u _
    simp [jsonDumps]
  · intro b u _
    simp [jsonDumps]
  · intro u _
    simp [jsonDumps]
  · intro es h u hu
    simp only [serializable] at hu
    simpa [jsonDumps] using h u hu
  · intro es h u hu
    simp only [serializable] at hu
    simpa [jsonDumps] using h u hu
  · intro a b c u hu
    simp [serializable] at hu
    simp [jsonDumps, hu]
  · intro u _
    simp [jsonDumpsEntries]
  · intro k v es hv hes u hu
    have hu' : (u || (serializable v && serializableEntries es)) = true := by
      simpa [serializableEntries] using hu
    have hv' : (u || serializable v) = true := by
      cases u <;> simp_all
    have hes' : (u || serializableEntries es) = true := by
      cases u <;> simp_all
    obtain ⟨a, ha⟩ := Option.isSome_iff_exists.mp (hv u hv')
    cases es with
    | nil => simp [jsonDumpsEntries, ha]
    | cons e es' =>
      obtain ⟨b, hb⟩ := Option.isSome_iff_exists.mp (hes u hes')
      simp [jsonDumpsEntries, ha, hb]
  · intro u _
    simp [jsonDumpsElems]
  · intro v es hv hes u hu
    have hu' : (u || (serializable v && serializableElems es)) = true := by
      simpa [serializableElems] using hu
    have hv' : (u || serializable v) = true := by
      cases u <;> simp_all
    have hes' : (u || serializableElems es) = true := by
      cases u <;> simp_all
    obtain ⟨a, ha⟩ := Option.isSome_iff_exists.mp (hv u hv')
    cases es with
    | nil => simp [jsonDumpsElems, ha]
    | cons e es' =>
      obtain ⟨b, hb⟩ := Option.isSome_iff_exists.mp (hes u hes')
      simp [jsonDumpsElems, ha, hb]

theorem dotJoin_append_cons (p : List String) (a b : String) :
    dotJoin ((a ++ "." ++ b) :: p) = a ++ "." ++ dotJoin (b :: p) := by
  cases p with
  | nil => rfl
  | cons c p' => simp [dotJoin, String.append_assoc]

theorem flattenSet_eq_leafPaths (v : PyVal) : ∀ pfx : String,
    flattenSet pfx v
      = (leafPaths v).map (fun q => (dotJoin (pfx :: q.1), pyStr q.2)) := by
  refine pyValInd
    (fun v => ∀ pfx : String, flattenSet pfx v
      = (leafPaths v).map (fun q => (dotJoin (pfx :: q.1), pyStr q.2)))
    (fun es => ∀ pfx : String, flattenEntries pfx es
      = (leafPathsE es).map (fun q => (dotJoin (pfx :: q.1), pyStr q.2)))
    (fun _ => True)
    ?_ ?_ ?_ ?_ ?_ ?_ ?_ ?_ ?_ ?_ ?_ v
  · intro s pfx
    simp [flattenSet, leafPaths, dotJoin]
  · intro n pfx
    simp [flattenSet, leafPaths, dotJoin]
  · intro b pfx
    simp [flattenSet, leafPaths, dotJoin]
  · intro pfx
    simp [flattenSet, leafPaths, dotJoin]
  · intro es _ pfx
    simp [flattenSet, leafPaths, dotJoin]
  · intro es h pfx
    simpa [flattenSet, leafPaths] using h pfx
  · intro a b c pfx
    simp [flattenSet, leafPaths, dotJoin]
  · intro pfx
    simp [flattenEntries, leafPathsE]
  · intro k v es hv hes pfx
    show flattenSet (pfx ++ "." ++ k) v ++ flattenEntries pfx es = _
    rw [hv, hes]
    simp [leafPathsE, List.map_map, Function.comp, dotJoin_append_cons, dotJoin]
  · trivial
  · intro _ _ _ _
    trivial

/-- The prefix accumulated by `_set_nested_attr` along a key path. -/
def nestedJoin (pfx : String) (p : List String) : String := p.foldl joinNested pfx

theorem setNestedAttr_eq_leafPaths (v : PyVal) : ∀ pfx : String,
    setNestedAttr pfx v
      = (leafPaths v).map (fun q => (nestedJoin pfx q.1, truncateAttr (pyStr q.2))) := by
  refine pyValInd
    (fun v => ∀ pfx : String, setNestedAttr pfx v
      = (leafPaths v).map (fun q => (nestedJoin pfx q.1, truncateAttr (pyStr q.2))))
    (fun es => ∀ pfx : String, setNestedEntries pfx es
      = (leafPathsE es).map (fun q => (nestedJoin pfx q.1, truncateAttr (pyStr q.2))))
    (fun _ => True)
    ?_ ?_ ?_ ?_ ?_ ?_ ?_ ?_ ?_ ?_ ?_ v
  · intro s pfx
    simp [setNestedAttr, leafPaths, nestedJoin]
  · intro n pfx
    simp [setNestedAttr, leafPaths, nestedJoin]
  · intro b pfx
    simp [setNestedAttr, leafPaths, nestedJoin]
  · intro pfx
    simp [setNestedAttr, leafPaths, nestedJoin]
  · intro es _ pfx
    simp [setNestedAttr, leafPaths, nestedJoin]
  · intro es h pfx
    simpa [setNestedAttr, leafPaths] using h pfx
  · intro a b c pfx
    simp [setNestedAttr, leafPaths, nestedJoin]
  · intro pfx
    simp [setNestedEntries, leafPathsE]
  · intro k v es hv hes pfx
    show setNestedAttr (joinNested pfx k) v ++ setNestedEntries pfx es = _
    rw [hv, hes]
    simp [leafPathsE, List.map_map, Function.comp, nestedJoin]
  · trivial
  · intro _ _ _ _
    trivial

theorem addSpanAttributesFromCtx_vals (ctx : Ctx) (p : String × String)
    (h : p ∈ addSpanAttributesFromCtx ctx) :
    ∃ leaf : PyVal, p.2 = truncateAttr (pyStr leaf) := by
  induction ctx with
  | nil => simp [addSpanAttributesFromCtx] at h
  | cons hd tl ih =>
    obtain ⟨k, v⟩ := hd
    by_cases hk : k = "severity" ∨ k = "timestamp" ∨ k = "message"
    · exact ih (by simpa [addSpanAttributesFromCtx, hk] using h)
    · simp only [addSpanAttributesFromCtx, if_neg hk, List.mem_append] at h
      rcases h with h | h
      · rw [setNestedAttr_eq_leafPaths] at h
        simp only [List.mem_map] at h
        obtain ⟨q, _, hq⟩ := h
        exact ⟨q.2, by rw [← hq]⟩
      · exact ih h

theorem jsonDumps_eq_none_of_not_serializable (v : PyVal) :
    serializable v = false → jsonDumps false v = Option.none := by
  refine pyValInd
    (fun v => serializable v = false → jsonDumps false v = Option.none)
    (fun es => serializableEntries es = false → jsonDumpsEntries false es = Option.none)
    (fun es => serializableElems es = false → jsonDumpsElems false es = Option.none)
    ?_ ?_ ?_ ?_ ?_ ?_ ?_ ?_ ?_ ?_ ?_ v
  · intro s h
    simp [serializable] at h
  · intro n h
    simp [serializable] at h
  · intro b h
    simp [serializable] at h
  · intro h
    simp [serializable] at h
  · intro es ih h
    simp only [serializable] at h
    simp [jsonDumps, ih h]
  · intro es ih h
    simp only [serializable] at h
    simp [jsonDumps, ih h]
  · intro a b c _
    simp [jsonDumps]
  · intro h
    simp [serializableEntries] at h
  · intro k v es hv hes h
    simp only [serializableEntries, Bool.and_eq_false_iff] at h
    cases es with
    | nil =>
      have hv' : serializable v = false := by
        rcases h with h | h
        · exact h
        · simp [serializableEntries] at h
      simp [jsonDumpsEntries, hv hv']
    | cons e es' =>
      rcases h with h | h
      · simp [jsonDumpsEntries, hv h]
      · cases hjv : jsonDumps false v <;> simp [jsonDumpsEntries, hjv, hes h]
  · intro h
    simp [serializableElems] at h
  · intro v es hv hes h
    simp only [serializableElems, Bool.and_eq_false_iff] at h
    cases es with
    | nil =>
      have hv' : serializable v = false := by
        rcases h with h | h
        · exact h
        · simp [serializableElems] at h
      simp [jsonDumpsElems, hv hv']
    | cons e es' =>
      rcases h with h | h
      · simp [jsonDumpsElems, hv h]
      · cases hjv : jsonDumps false v <;> simp [jsonDumpsElems, hjv, hes h]

theorem serializable_of_dictGet (d : Ctx) (k : String) (v : PyVal)
    (hd : serializableEntries d = true) (h : dictGet d k = some v) :
    serializable v = true := by
  induction d with
  | nil => simp at h
  | cons hd0 tl ih =>
    obtain ⟨k0, v0⟩ := hd0
    simp only [serializableEntries, Bool.and_eq_true] at hd
    by_cases h0 : k0 = k
    · simp [h0] at h
      subst h
      exact hd.1
    · simp [h0] at h
      exact ih hd.2 h

theorem serializableEntries_dictSet (d : Ctx) (k : String) (v : PyVal)
    (hd : serializableEntries d = true) (hv : serializable v = true) :
    serializableEntries (dictSet d k v) = true := by
  induction d with
  | nil => simp [dictSet, serializableEntries, hv]
  | cons hd0 tl ih =>
    obtain ⟨k0, v0⟩ := hd0
    simp only [serializableEntries, Bool.and_eq_true] at hd
    by_cases h0 : k0 = k
    · simp [dictSet, h0, serializableEntries, hv, hd.2]
    · simp [dictSet, h0, serializableEntries, hd.1, ih hd.2]

theorem serializableEntries_spread (m base : Ctx)
    (hb : serializableEntries base = true) (hm : serializableEntries m = true) :
    serializableEntries (spread base m) = true := by
  induction m generalizing base with
  | nil => exact hb
  | cons hd0 tl ih =>
    obtain ⟨k0, v0⟩ := hd0
    simp only [serializableEntries, Bool.and_eq_true] at hm
    have hs : spread base ((k0, v0) :: tl) = spread (dictSet base k0 v0) tl := rfl
    rw [hs]
    exact ih _ (serializableEntries_dictSet base k0 v0 hb hm.1) hm.2

theorem serializableEntries_dictRemove (d : Ctx) (k : String)
    (hd : serializableEntries d = true) :
    serializableEntries (dictRemove d k) = true := by
  induction d with
  | nil => simpa [dictRemove] using hd
  | cons hd0 tl ih =>
    obtain ⟨k0, v0⟩ := hd0
    simp only [serializableEntries, Bool.and_eq_true] at hd
    by_cases h0 : k0 = k
    · simpa [dictRemove, h0] using hd.2
    · simp [dictRemove, h0, serializableEntries, hd.1, ih hd.2]

/-- C7: `clear()` followed by `get_all()` returns an empty bucket, for
every prior store state of the current logical execution. -/
theorem clear_then_get_all_empty (s : Store) (e : ExecId) :
    getAll (runOp s e Op.clear) e = [] := by
  simp [getAll, getCtxOf, runOp_self_clear]

/-- C3: for every key under the reserved prefix `logging.googleapis.com`,
`add(key, v)` stores the key flat: `get_all()[key] == v`, with no
nesting applied even though the key contains dots. -/
theorem add_reserved_prefix_flat (ctx : Ctx) (key : String) (v : PyVal)
    (hpre : pyStartsWith key "logging.googleapis.com" = true) :
    dictGet (addCtx ctx key v) key = some v := by
  rw [addCtx, if_neg (by simp [hpre])]
  exact dictGet_dictSet_self ctx key v

/-- Witness for C3 at `key = "logging.googleapis.com/trace"`. -/
theorem add_reserved_prefix_flat_witness :
    pyStartsWith "logging.googleapis.com/trace" "logging.googleapis.com" = true ∧
    dictGet (addCtx [] "logging.googleapis.com/trace" (PyVal.str "projects/p/traces/t"))
        "logging.googleapis.com/trace" = some (PyVal.str "projects/p/traces/t") :=
  ⟨by decide, add_reserved_prefix_flat [] "logging.googleapis.com/trace"
    (PyVal.str "projects/p/traces/t") (by decide)⟩

/-- C2: for every key containing a dot (and not under the reserved
prefix), `add(key, v)` creates intermediate nested dicts along the
dot-split path and stores the value at the final path component:
looking up the split path in the bucket afterwards yields the value. -/
theorem add_dotted_key_nests (ctx : Ctx) (key : String) (v : PyVal)
    (hdot : pyIn '.' key = true)
    (hpre : pyStartsWith key "logging.googleapis.com" = false) :
    lookupPath (addCtx ctx key v) (pySplit key '.') = some v := by
  rw [addCtx, if_pos (by simp [hdot, hpre])]
  exact lookupPath_setPath (pySplit key '.') ctx v (pySplit_ne_nil key _)

/-- Witness for C2 at `key = "a.b.c"`: the split path is
`["a", "b", "c"]` and `get_all()["a"]["b"]["c"] == v`. -/
theorem add_dotted_key_nests_witness :
    pyIn '.' "a.b.c" = true ∧
    pyStartsWith "a.b.c" "logging.googleapis.com" = false ∧
    pySplit "a.b.c" '.' = ["a", "b", "c"] ∧
    lookupPath (addCtx [] "a.b.c" (PyVal.int 7)) ["a", "b", "c"] = some (PyVal.int 7) :=
  ⟨by decide, by decide, rfl,
    add_dotted_key_nests [] "a.b.c" (PyVal.int 7) (by decide) (by decide)⟩

/-- C6: recording a caught exception writes an error record with exactly
the exception's class name under `error.type`, its message under
`error.message` and its class module under `error.module`, sets
`severity` to `"ERROR"`, and the instrumented wrapper re-raises the very
same exception. -/
theorem record_exception_and_reraise (ctx : Ctx) (e : PyExc) :
    (∃ d : List (String × PyVal),
      dictGet (syncWrapperExcept ctx e).1 "error" = some (PyVal.dict d) ∧
      dictGet d "type" = some (PyVal.str e.className) ∧
      dictGet d "message" = some (PyVal.str e.message) ∧
      dictGet d "module" = some (PyVal.str e.module)) ∧
    dictGet (syncWrapperExcept ctx e).1 "severity" = some (PyVal.str "ERROR") ∧
    (syncWrapperExcept ctx e).2 = Except.error e := by
  have h1 : (syncWrapperExcept ctx e).1
      = dictSet (dictSet ctx "error" (errorInfo e)) "severity" (PyVal.str "ERROR") := rfl
  refine ⟨⟨[("type", PyVal.str e.className), ("message", PyVal.str e.message),
      ("module", PyVal.str e.module)], ?_, rfl, ?_, ?_⟩, ?_, rfl⟩
  · rw [h1, dictGet_dictSet_ne _ _ _ _ (by decide), dictGet_dictSet_self]
    rfl
  · rfl
  · rfl
  · rw [h1, dictGet_dictSet_self]

/-- C10: `add` through a dotted key whose first component holds a
non-dict value silently replaces that value with a fresh nested dict
containing only the new binding; the previous value at that component is
lost. -/
theorem add_overwrites_non_dict_parent (ctx : Ctx) (v w : PyVal)
    (hw : dictGet ctx "a" = some w)
    (hnd : ∀ sub : List (String × PyVal), w ≠ PyVal.dict sub) :
    dictGet (addCtx ctx "a.b" v) "a" = some (PyVal.dict [("b", v)]) ∧
    dictGet (addCtx ctx "a.b" v) "a" ≠ some w := by
  have hc : childCtx ctx "a" = [] := by
    unfold childCtx
    rw [hw]
    cases w with
    | dict sub => exact absurd rfl (hnd sub)
    | str s => rfl
    | int n => rfl
    | bool b => rfl
    | none => rfl
    | list es => rfl
    | obj a b c => rfl
  have h2 : addCtx ctx "a.b" v
      = dictSet ctx "a" (PyVal.dict (dictSet (childCtx ctx "a") "b" v)) := rfl
  have h3 : dictGet (addCtx ctx "a.b" v) "a" = some (PyVal.dict [("b", v)]) := by
    rw [h2, dictGet_dictSet_self, hc]
    rfl
  refine ⟨h3, ?_⟩
  rw [h3]
  intro hcontra
  have : PyVal.dict [("b", v)] = w := by
    injection hcontra
  exact (hnd [("b", v)]) this.symm

/-- Witness for C10: after `add("a", 5); add("a.b", "x")` the bucket maps
`a` to `{"b": "x"}` and the `5` is gone. -/
theorem add_overwrites_non_dict_parent_witness :
    dictGet [("a", PyVal.int 5)] "a" = some (PyVal.int 5) ∧
    (∀ sub : List (String × PyVal), PyVal.int 5 ≠ PyVal.dict sub) ∧
    (dictGet (addCtx [("a", PyVal.int 5)] "a.b" (PyVal.str "x")) "a"
        = some (PyVal.dict [("b", PyVal.str "x")]) ∧
      dictGet (addCtx [("a", PyVal.int 5)] "a.b" (PyVal.str "x")) "a"
        ≠ some (PyVal.int 5)) :=
  ⟨rfl, fun _ h => PyVal.noConfusion h,
    add_overwrites_non_dict_parent [("a", PyVal.int 5)] (PyVal.str "x") (PyVal.int 5)
      rfl (fun _ h => PyVal.noConfusion h)⟩

/-- C1: context-bucket isolation.  In any interleaved trace in which
execution `e1` runs `clear(); add("id", n1)` and execution `e2` runs
`clear(); add("id", n2)` with `n1 ≠ n2`, each execution's `get_all()`
holds exactly its own value and never the other's; moreover every
`LogContext` operation leaves the slot of every other logical execution
untouched. -/
theorem context_bucket_isolation (s : Store) (tr : List (ExecId × Op))
    (e1 e2 : ExecId) (n1 n2 : PyVal)
    (_hne : e1 ≠ e2) (hv : n1 ≠ n2)
    (h1 : opsOf e1 tr = [Op.clear, Op.add "id" n1])
    (h2 : opsOf e2 tr = [Op.clear, Op.add "id" n2]) :
    getAll (runTrace s tr) e1 = [("id", n1)] ∧
    getAll (runTrace s tr) e2 = [("id", n2)] ∧
    dictGet (getAll (runTrace s tr) e1) "id" ≠ some n2 ∧
    dictGet (getAll (runTrace s tr) e2) "id" ≠ some n1 ∧
    (∀ (s' : Store) (e e' : ExecId) (op : Op), e' ≠ e → runOp s' e op e' = s' e') := by
  have key1 : getAll (runTrace s tr) e1 = [("id", n1)] := by
    show ((runTrace s tr) e1).getD [] = [("id", n1)]
    rw [runTrace_proj, h1]
    rfl
  have key2 : getAll (runTrace s tr) e2 = [("id", n2)] := by
    show ((runTrace s tr) e2).getD [] = [("id", n2)]
    rw [runTrace_proj, h2]
    rfl
  refine ⟨key1, key2, ?_, ?_, fun s' e e' op h => runOp_frame s' e e' op h⟩
  · rw [key1]
    simp [hv]
  · rw [key2]
    have hv' : ¬ n2 = n1 := fun h => hv h.symm
    simp [hv']

/-- The concrete interleaving used to witness C1. -/
def trC1 : List (ExecId × Op) :=
  [(0, Op.clear), (1, Op.clear), (0, Op.add "id" (PyVal.int 1)),
    (1, Op.add "id" (PyVal.int 2))]

/-- Witness for C1: two interleaved executions writing `id = 1` and
`id = 2` from an initially empty store. -/
theorem context_bucket_isolation_witness :
    (0 : ExecId) ≠ 1 ∧ PyVal.int 1 ≠ PyVal.int 2 ∧
    opsOf 0 trC1 = [Op.clear, Op.add "id" (PyVal.int 1)] ∧
    opsOf 1 trC1 = [Op.clear, Op.add "id" (PyVal.int 2)] ∧
    getAll (runTrace (fun _ => Option.none) trC1) 0 = [("id", PyVal.int 1)] :=
  ⟨by decide, by simp, rfl, rfl,
    (context_bucket_isolation (fun _ => Option.none) trC1 0 1
      (PyVal.int 1) (PyVal.int 2) (by decide) (by simp) rfl rfl).1⟩

/-- C9: when `add` receives a nested dict as value and a recording span
is active, the span writes are exactly one attribute per leaf of the
depth-first walk, named by the dot-joined path from the top-level key
through the nested keys, and valued by the stringified leaf. -/
theorem add_dict_value_flattens_span (spanRec : Bool) (ctx : Ctx) (key : String)
    (es : List (String × PyVal)) (hrec : spanRec = true) :
    (addOp spanRec ctx key (PyVal.dict es)).2
      = (leafPaths (PyVal.dict es)).map
          (fun q => (dotJoin (key :: q.1), pyStr q.2)) := by
  subst hrec
  show addSpanWrites key (PyVal.dict es) = _
  show flattenSet key (PyVal.dict es) = _
  exact flattenSet_eq_leafPaths (PyVal.dict es) key

/-- Witness for C9 at `add("gen_ai", {"usage": {"total_tokens": 42},
"model": "m"})`. -/
theorem add_dict_value_flattens_span_witness :
    (true : Bool) = true ∧
    (addOp true [] "gen_ai"
        (PyVal.dict [("usage", PyVal.dict [("total_tokens", PyVal.int 42)]),
          ("model", PyVal.str "m")])).2
      = (leafPaths (PyVal.dict [("usage", PyVal.dict [("total_tokens", PyVal.int 42)]),
          ("model", PyVal.str "m")])).map
          (fun q => (dotJoin ("gen_ai" :: q.1), pyStr q.2)) :=
  ⟨rfl, add_dict_value_flattens_span true [] "gen_ai"
    [("usage", PyVal.dict [("total_tokens", PyVal.int 42)]), ("model", PyVal.str "m")] rfl⟩

/-- A 2000-character string, as in the spec's truncation example. -/
def longStr : String := String.mk (List.replicate 2000 'a')

theorem longStr_length : longStr.length = 2000 := by
  show (List.replicate 2000 'a').length = 2000
  rw [List.length_replicate]

theorem truncateAttr_longStr_length : (truncateAttr longStr).length = 1039 := by
  have hgt : 1024 < longStr.length := by
    rw [longStr_length]
    decide
  have he : truncateAttr longStr = String.take longStr 1024 ++ "... [truncated]" := by
    simp only [truncateAttr]
    rw [if_pos hgt]
  have ht : (String.take longStr 1024).length = 1024 := by
    rw [String.take_eq longStr 1024, String.length_mk]
    show ((List.replicate 2000 'a').take 1024).length = 1024
    rw [List.length_take, List.length_replicate]
    decide
  rw [he, String.length_append, ht]
  decide

/-- C4 counterexample: with a recording span active, `add` mirrors a
2000-character string value onto the span at full length — the attribute
value written is the raw string itself (length 2000, no truncation
marker), not its truncated form. -/
theorem span_mirror_untruncated_cex :
    (addOp true [] "gen_ai.content.prompt" (PyVal.str longStr)).2
      = [("gen_ai.content.prompt", longStr)] ∧
    longStr.length = 2000 ∧
    truncateAttr longStr ≠ longStr := by
  refine ⟨rfl, longStr_length, fun h => ?_⟩
  have h1 := truncateAttr_longStr_length
  rw [h, longStr_length] at h1
  omega

/-- C4 amended: the 1024-character truncation with the `... [truncated]`
marker is applied to the values mirrored onto the span by the
end-of-unit-of-work export `_add_span_attributes_from_ctx` (every
attribute value it writes is the truncation of a stringified leaf),
while the inline mirroring performed by `add` itself writes raw
stringified leaves with no truncation. -/
theorem span_attr_truncation_amended (ctx : Ctx) (p : String × String)
    (h : p ∈ addSpanAttributesFromCtx ctx) :
    (∃ leaf : PyVal, p.2 = truncateAttr (pyStr leaf)) ∧
    (∀ s : String, 1024 < s.length →
      truncateAttr s = s.take 1024 ++ "... [truncated]") ∧
    (∀ s : String, s.length ≤ 1024 → truncateAttr s = s) ∧
    (∀ (key : String) (v : PyVal) (q : String × String),
      q ∈ addSpanWrites key v → ∃ leaf : PyVal, q.2 = pyStr leaf) := by
  refine ⟨addSpanAttributesFromCtx_vals ctx p h, ?_, ?_, ?_⟩
  · intro s hs
    simp only [truncateAttr]
    rw [if_pos hs]
  · intro s hs
    simp only [truncateAttr]
    rw [if_neg (by omega)]
  · intro key v q hq
    cases v with
    | dict es =>
      have hq' : q ∈ flattenSet key (PyVal.dict es) := hq
      rw [flattenSet_eq_leafPaths] at hq'
      simp only [List.mem_map] at hq'
      obtain ⟨l, _, hl⟩ := hq'
      exact ⟨l.2, by rw [← hl]⟩
    | str s =>
      simp [addSpanWrites] at hq
      exact ⟨PyVal.str s, by rw [hq]⟩
    | int n =>
      simp [addSpanWrites] at hq
      exact ⟨PyVal.int n, by rw [hq]⟩
    | bool b =>
      simp [addSpanWrites] at hq
      exact ⟨PyVal.bool b, by rw [hq]⟩
    | none =>
      simp [addSpanWrites] at hq
      exact ⟨PyVal.none, by rw [hq]⟩
    | list es =>
      simp [addSpanWrites] at hq
      exact ⟨PyVal.list es, by rw [hq]⟩
    | obj a b c =>
      simp [addSpanWrites] at hq
      exact ⟨PyVal.obj a b c, by rw [hq]⟩

/-- Witness for the amended C4, at the one-entry bucket
`{"k": "v"}`. -/
theorem span_attr_truncation_amended_witness :
    ("k", "v") ∈ addSpanAttributesFromCtx [("k", PyVal.str "v")] ∧
    (∃ leaf : PyVal, ("k", "v").2 = truncateAttr (pyStr leaf)) := by
  have htr : truncateAttr "v" = "v" := by
    simp only [truncateAttr]
    rw [if_neg (by decide)]
  have hmem : ("k", "v") ∈ addSpanAttributesFromCtx [("k", PyVal.str "v")] := by
    simp [addSpanAttributesFromCtx, setNestedAttr, pyStr, htr]
  exact ⟨hmem,
    (span_attr_truncation_amended [("k", PyVal.str "v")] ("k", "v") hmem).1⟩

theorem dictGet_spread_isSome (m base : Ctx) (k : String)
    (hnd : (ctxKeys m).Nodup) (hbase : (dictGet base k).isSome) :
    (dictGet (spread base m) k).isSome := by
  cases hm : dictGet m k with
  | none =>
    have hnm : k ∉ ctxKeys m := fun hmem => by
      have hs := dictGet_isSome_of_mem_keys m k hmem
      rw [hm] at hs
      simp at hs
    rw [dictGet_spread_of_not_mem m base k hnm]
    exact hbase
  | some v => simp [dictGet_spread_of_mem m k v hnd hm base]

/-- C5: the bucket `{"obj": object()}` (a value that is not JSON
serializable and has no `isoformat`) makes the FastAPI and Flask
`_emit_log` fail with a `TypeError` from `json.dumps` — no record is
produced — whereas the Django `_emit_log`, which passes
`default=default_serializer`, still emits a record; `default_serializer`
itself stringifies via `isoformat()` when available and `str()`
otherwise. -/
theorem emit_nonserializable_fastapi_fails :
    emitLogFastapi [("obj", PyVal.obj false "" "<object object at 0x0>")]
        "2026-01-01T00:00:00Z" = EmitResult.serializationError ∧
    emitLogFlask [("obj", PyVal.obj false "" "<object object at 0x0>")]
        "2026-01-01T00:00:00Z" = EmitResult.serializationError ∧
    (∃ line, emitLogDjango [("obj", PyVal.obj false "" "<object object at 0x0>")]
        "2026-01-01T00:00:00Z" = EmitResult.emitted line) ∧
    default_serializer (PyVal.obj true "2026-01-01T00:00:00" "<datetime>")
      = "2026-01-01T00:00:00" ∧
    default_serializer (PyVal.obj false "" "<object object at 0x0>")
      = "<object object at 0x0>" := by
  have hns : serializable (PyVal.dict (finalLogFlask
      [("obj", PyVal.obj false "" "<object object at 0x0>")]
      "2026-01-01T00:00:00Z")) = false := by
    have hfin : finalLogFlask [("obj", PyVal.obj false "" "<object object at 0x0>")]
        "2026-01-01T00:00:00Z"
        = [("severity", PyVal.str "INFO"),
           ("timestamp", PyVal.str "2026-01-01T00:00:00Z"),
           ("message", PyVal.str "Request processed"),
           ("obj", PyVal.obj false "" "<object object at 0x0>")] := rfl
    rw [hfin]
    simp [serializable, serializableEntries]
  have hnone := jsonDumps_eq_none_of_not_serializable _ hns
  have hflask : emitLogFlask [("obj", PyVal.obj false "" "<object object at 0x0>")]
      "2026-01-01T00:00:00Z" = EmitResult.serializationError := by
    simp [emitLogFlask, hnone]
  refine ⟨hflask, hflask, ?_, rfl, rfl⟩
  have hdj := jsonDumps_isSome (PyVal.dict (finalLogDjango
      [("obj", PyVal.obj false "" "<object object at 0x0>")]
      "2026-01-01T00:00:00Z")) true (by simp)
  obtain ⟨line, hline⟩ := Option.isSome_iff_exists.mp hdj
  exact ⟨line, by simp [emitLogDjango, hline]⟩

/-- C8: at the end of a unit of work with a non-empty bucket (keys
distinct, values JSON-serializable), both the Flask and the Django
`_emit_log` serialize successfully and emit a record; the record
contains a timestamp field and every key of the accumulated bucket, and
its severity equals the bucket's severity when one was recorded and
`"INFO"` otherwise. -/
theorem emit_log_structure (ctx : Ctx) (ts : String)
    (hne : ctx ≠ [])
    (hnd : (ctxKeys ctx).Nodup)
    (hser : serializableEntries ctx = true) :
    (∃ line, emitLogFlask ctx ts = EmitResult.emitted line) ∧
    (∃ line, emitLogDjango ctx ts = EmitResult.emitted line) ∧
    (dictGet (finalLogFlask ctx ts) "timestamp").isSome ∧
    (dictGet (finalLogDjango ctx ts) "timestamp").isSome ∧
    (∀ k, k ∈ ctxKeys ctx → (dictGet (finalLogFlask ctx ts) k).isSome ∧
      (dictGet (finalLogDjango ctx ts) k).isSome) ∧
    dictGet (finalLogFlask ctx ts) "severity"
      = some ((dictGet ctx "severity").getD (PyVal.str "INFO")) ∧
    dictGet (finalLogDjango ctx ts) "severity"
      = some ((dictGet ctx "severity").getD (PyVal.str "INFO")) := by
  have hempty : ctx.isEmpty = false := by
    cases ctx with
    | nil => exact absurd rfl hne
    | cons a l => rfl
  have hsev_ser : serializable ((dictGet ctx "severity").getD (PyVal.str "INFO")) = true := by
    cases hs : dictGet ctx "severity" with
    | none => rfl
    | some v => exact serializable_of_dictGet ctx "severity" v hser hs
  have hbaseF : serializableEntries
      [("severity", (dictGet ctx "severity").getD (PyVal.str "INFO")),
       ("timestamp", PyVal.str ts),
       ("message", PyVal.str "Request processed")] = true := by
    simp [serializableEntries, serializable, hsev_ser]
  have hbaseD : serializableEntries
      [("severity", (dictGet ctx "severity").getD (PyVal.str "INFO")),
       ("timestamp", PyVal.str ts)] = true := by
    simp [serializableEntries, serializable, hsev_ser]
  have hndD : (ctxKeys (dictRemove ctx "severity")).Nodup :=
    ctxKeys_dictRemove_nodup ctx "severity" hnd
  have hserF : serializableEntries (finalLogFlask ctx ts) = true :=
    serializableEntries_spread ctx _ hbaseF hser
  have hserD : serializableEntries (finalLogDjango ctx ts) = true :=
    serializableEntries_spread (dictRemove ctx "severity") _ hbaseD
      (serializableEntries_dictRemove ctx "severity" hser)
  have hsevD : dictGet (finalLogDjango ctx ts) "severity"
      = some ((dictGet ctx "severity").getD (PyVal.str "INFO")) := by
    have hnm : "severity" ∉ ctxKeys (dictRemove ctx "severity") := fun hmem => by
      have hs := dictGet_isSome_of_mem_keys _ _ hmem
      rw [dictGet_dictRemove_self ctx "severity" hnd] at hs
      simp at hs
    rw [show finalLogDjango ctx ts = spread
        [("severity", (dictGet ctx "severity").getD (PyVal.str "INFO")),
         ("timestamp", PyVal.str ts)] (dictRemove ctx "severity") from rfl,
      dictGet_spread_of_not_mem _ _ _ hnm]
    rfl
  refine ⟨?_, ?_, ?_, ?_, ?_, ?_, hsevD⟩
  · obtain ⟨line, hline⟩ := Option.isSome_iff_exists.mp
      (jsonDumps_isSome (PyVal.dict (finalLogFlask ctx ts)) false
        (by simp [serializable, hserF]))
    exact ⟨line, by simp [emitLogFlask, hempty, hline]⟩
  · obtain ⟨line, hline⟩ := Option.isSome_iff_exists.mp
      (jsonDumps_isSome (PyVal.dict (finalLogDjango ctx ts)) true (by simp))
    exact ⟨line, by simp [emitLogDjango, hempty, hline]⟩
  · exact dictGet_spread_isSome ctx _ "timestamp" hnd (by rfl)
  · exact dictGet_spread_isSome (dictRemove ctx "severity") _ "timestamp" hndD (by rfl)
  · intro k hk
    obtain ⟨v, hv⟩ := Option.isSome_iff_exists.mp (dictGet_isSome_of_mem_keys ctx k hk)
    constructor
    · have h1 : dictGet (finalLogFlask ctx ts) k = some v :=
        dictGet_spread_of_mem ctx k v hnd hv _
      rw [h1]
      rfl
    · by_cases hks : k = "severity"
      · subst hks
        rw [hsevD]
        rfl
      · have hk' : k ∈ ctxKeys (dictRemove ctx "severity") :=
          ctxKeys_dictRemove_subset ctx "severity" k hks hk
        obtain ⟨w, hw⟩ := Option.isSome_iff_exists.mp
          (dictGet_isSome_of_mem_keys _ k hk')
        have h2 : dictGet (finalLogDjango ctx ts) k = some w :=
          dictGet_spread_of_mem (dictRemove ctx "severity") k w hndD hw _
        rw [h2]
        rfl
  · cases hs : dictGet ctx "severity" with
    | none =>
      have hnm : "severity" ∉ ctxKeys ctx := fun hmem => by
        have hss := dictGet_isSome_of_mem_keys ctx _ hmem
        rw [hs] at hss
        simp at hss
      have h1 : dictGet (finalLogFlask ctx ts) "severity"
          = dictGet [("severity", (dictGet ctx "severity").getD (PyVal.str "INFO")),
             ("timestamp", PyVal.str ts),
             ("message", PyVal.str "Request processed")] "severity" :=
        dictGet_spread_of_not_mem ctx _ "severity" hnm
      rw [h1, hs]
      rfl
    | some v =>
      have h1 : dictGet (finalLogFlask ctx ts) "severity" = some v :=
        dictGet_spread_of_mem ctx "severity" v hnd hs _
      rw [h1]
      rfl

/-- Witness for C8 at the one-entry bucket `{"a": "x"}`. -/
theorem emit_log_structure_witness :
    ([("a", PyVal.str "x")] : Ctx) ≠ [] ∧
    (ctxKeys [("a", PyVal.str "x")]).Nodup ∧
    serializableEntries [("a", PyVal.str "x")] = true ∧
    (∃ line, emitLogFlask [("a", PyVal.str "x")] "T" = EmitResult.emitted line) :=
  ⟨by simp, by decide, by simp [serializableEntries, serializable],
    (emit_log_structure [("a", PyVal.str "x")] "T" (by simp) (by decide)
      (by simp [serializableEntries, serializable])).1⟩

end AdkLog
